import Mathlib

/-!
Verification of the Palo Alto police-log analysis pipeline.

This file shallowly embeds the record-processing core of the repository:
  - string helpers mirroring Python str.strip / str.lower / substring tests;
  - the website-preparation step (step_5_prepare_output.py): pandas
    drop_duplicates on the composite key (case_number, date), and the
    HHMM-to-minutes time conversion with its fillna(0) default;
  - the extraction scripts (extract_data.py and archive/extract_data.py):
    header-row detection, the tabular row loop, and the two free-text
    fallback parsers with executable models of their regexes;
  - the enrichment step (step_4_process_data.py): the LLM offense
    categorisation with its validation, the offense-category cache update,
    the geocoding loop with its cache, and the per-file row pipeline;
  - the CSV aggregation (analysis/analyze_csv_data.py): severity-weighted
    safety scores; and the time bucketing of analyze_data.py.

Missing values (pandas NaN / Python None) are modelled as `none`; pandas
treats equal keys, including two missing values, as duplicates of each
other in drop_duplicates, which the Option equality reproduces.
-/

/-! ### Python string primitives -/

/-- The Python whitespace class used by str.strip and the regex class \s. -/
def pySpc (c : Char) : Bool :=
  c = ' ' || c = '\t' || c = '\n' || c = '\x0d' || c = '\x0b' || c = '\x0c'

/-- Drop trailing characters satisfying p. -/
def dropEndWhile (p : Char → Bool) (l : List Char) : List Char :=
  (l.reverse.dropWhile p).reverse

/-- Python str.strip on a character list. -/
def pyStripList (l : List Char) : List Char :=
  dropEndWhile pySpc (l.dropWhile pySpc)

/-- Python str.strip. -/
def pyStrip (s : String) : String := ⟨pyStripList s.toList⟩

/-- ASCII lower-casing of one character (Python str.lower on this data). -/
def lowC (c : Char) : Char :=
  if 'A' ≤ c ∧ c ≤ 'Z' then Char.ofNat (c.toNat + 32) else c

/-- ASCII upper-casing of one character (Python str.upper on this data). -/
def upC (c : Char) : Char :=
  if 'a' ≤ c ∧ c ≤ 'z' then Char.ofNat (c.toNat - 32) else c

/-- Lower-case a character list. -/
def lowS (l : List Char) : List Char := l.map lowC

/-- Upper-case a character list. -/
def upS (l : List Char) : List Char := l.map upC

/-- Python substring test: nd occurs contiguously in hay. -/
def listHas (nd : List Char) : List Char → Bool
  | [] => nd.isEmpty
  | c :: t => nd.isPrefixOf (c :: t) || listHas nd t

/-- Case-insensitive keyword test used by header detection:
kw in cell.lower() with kw already lower-case. -/
def hasKwCI (kw : String) (cell : String) : Bool :=
  listHas kw.toList (lowS cell.toList)

/-- Word characters of the regex class \w. -/
def isWordChar (c : Char) : Bool := c.isAlphanum || c = '_'

/-- Split a character list at every occurrence of the separator
(Python str.split with an explicit separator: empty pieces are kept). -/
def splitOnChar (c : Char) : List Char → List (List Char)
  | [] => [[]]
  | x :: t =>
    match splitOnChar c t with
    | [] => [[]]
    | h :: r => if x = c then [] :: h :: r else (x :: h) :: r

/-- text.split of the parsers, on newlines. -/
def splitLines (s : String) : List String :=
  (splitOnChar '\n' s.toList).map (fun l => ⟨l⟩)

/-- Value of an ASCII digit string. -/
def digitsToNat (l : List Char) : Nat :=
  l.foldl (fun n c => n * 10 + (c.toNat - 48)) 0

/-! ### Association lists with Python dict update semantics -/

/-- Python dict lookup: d.get(k). -/
def alookup {α : Type} (l : List (String × α)) (k : String) : Option α :=
  (l.find? (fun p => p.1 = k)).map (fun p => p.2)

/-- Python dict assignment d[k] = v: replace in place if present, else append. -/
def aupdate {α : Type} (l : List (String × α)) (k : String) (v : α) :
    List (String × α) :=
  if (l.find? (fun p => p.1 = k)).isSome then
    l.map (fun p => if p.1 = k then (k, v) else p)
  else l ++ [(k, v)]

/-- Python dict.update(m): assign every pair of m in order. -/
def aupdateAll {α : Type} (l m : List (String × α)) : List (String × α) :=
  m.foldl (fun acc p => aupdate acc p.1 p.2) l

/-- Accumulator pass keeping the first occurrence of each element. -/
def uniqueFirstGo (seen : List String) : List String → List String
  | [] => []
  | x :: xs =>
    if seen.contains x then uniqueFirstGo seen xs
    else x :: uniqueFirstGo (x :: seen) xs

/-- Keep the first occurrence of each element (pandas Series.unique order). -/
def uniqueFirst (l : List String) : List String := uniqueFirstGo [] l

/-! ### Step 5: website preparation (src/pipeline/steps/step_5_prepare_output.py) -/

namespace Step5

/-- A combined record as seen by prepare_data_for_website just before
deduplication.  case_number and date are read as strings with missing cells
as NaN, modelled none; source_file tracks provenance. -/
structure WebRec where
  case_number : Option String
  date : Option String
  source_file : String
deriving DecidableEq, Repr

/-- The deduplication key: the subset ['case_number', 'date']. -/
def dedupKey (r : WebRec) : Option String × Option String :=
  (r.case_number, r.date)

/-- Recursive core of pandas drop_duplicates(keep='first'): a record is kept
iff its key has not been seen earlier; pandas treats equal keys, including
NaN = NaN, as duplicates. -/
def ddGo (seen : List (Option String × Option String)) :
    List WebRec → List WebRec
  | [] => []
  | r :: rs =>
    if dedupKey r ∈ seen then ddGo seen rs
    else r :: ddGo (dedupKey r :: seen) rs

/-- combined_df.drop_duplicates(subset=['case_number','date'], keep='first'). -/
def drop_duplicates (l : List WebRec) : List WebRec := ddGo [] l

/-- Specification-side deduplication, written from the words of the claim:
the first record with a given (case_number, date) pair is kept, and every
later record with the same pair is dropped. -/
def specDedup : List WebRec → List WebRec
  | [] => []
  | r :: rs => r :: specDedup (rs.filter (fun s => dedupKey s ≠ dedupKey r))
termination_by l => l.length
decreasing_by
  simp only [List.length_cons]
  exact Nat.lt_succ_of_le (List.length_filter_le _ _)

/-- Body of time_to_minutes after the dot cut: the sentinel strings that
str() produces for missing values give pd.NA, then a 4-digit all-digit
string with hours 00-23 and minutes 00-59 becomes hours*60+minutes and
anything else gives pd.NA. -/
def timeCore (t : String) : Option Nat :=
  if t = "" ∨ t = "nan" ∨ t = "NaT" then none
  else if t.toList.length ≠ 4 ∨ ¬ t.toList.all Char.isDigit then none
  else if digitsToNat (t.toList.take 2) ≤ 23 ∧ digitsToNat (t.toList.drop 2) ≤ 59 then
    some (digitsToNat (t.toList.take 2) * 60 + digitsToNat (t.toList.drop 2))
  else none

/-- str(time_val).split of the helper: the prefix before the first dot. -/
def cutAtDot (s : String) : String :=
  ⟨s.toList.takeWhile (fun c => c ≠ '.')⟩

/-- The time_to_minutes helper of prepare_data_for_website: the value is
rendered with str() (so a missing value prints as "nan"), everything from
the first dot on is cut off, and the remainder is converted by timeCore. -/
def time_to_minutes (time_val : String) : Option Nat :=
  timeCore (cutAtDot time_val)

/-- The emitted time value: the conversion followed by fillna(0). -/
def timeMinutesFilled (time_val : String) : Nat :=
  (time_to_minutes time_val).getD 0

/-- Specification-side core of the amended time conversion on the
dot-stripped string. -/
def specTimeCore (t : String) : Nat :=
  if t.toList.length = 4 ∧ t.toList.all Char.isDigit ∧ t ≠ "" ∧ t ≠ "nan" ∧ t ≠ "NaT" ∧
      digitsToNat (t.toList.take 2) ≤ 23 ∧ digitsToNat (t.toList.drop 2) ≤ 59 then
    digitsToNat (t.toList.take 2) * 60 + digitsToNat (t.toList.drop 2)
  else 0

/-- Specification-side form of the amended time conversion: cut the string
at the first dot; a 4-digit digit string with in-range hours and minutes
maps to minutes past midnight, everything else to 0. -/
def specTimeMinutes (time_val : String) : Nat :=
  specTimeCore (cutAtDot time_val)

end Step5

/-! ### Executable models of the extraction regexes

Each rePat function tries the pattern at the start of the given suffix and
returns the capture group on success; scanWith realises re.search by trying
every start position from the left.  Greedy matching with the relevant
backtracking cases of the Python engine is unfolded by hand; comments note
where backtracking is provably irrelevant. -/

/-- re.search: try the position matcher at each suffix, leftmost wins. -/
def scanWith (f : List Char → Option (List Char)) : List Char → Option (List Char)
  | [] => f []
  | l@(_ :: t) => (f l).orElse (fun _ => scanWith f t)

/-- Case-insensitive literal: if kw (given lower-case) matches here, return
the remaining suffix. -/
def stripPrefixCI (kw : String) (l : List Char) : Option (List Char) :=
  if lowS (l.take kw.length) = kw.toList then some (l.drop kw.length) else none

/-- First alternative that matches, in regex order. -/
def firstSome {α : Type} (l : List (Option α)) : Option α :=
  l.foldr (fun o acc => o.orElse (fun _ => acc)) none

/-- Numeric date group, first alternative of the date patterns: one or two
digits, a slash or dash, one or two digits, a slash or dash, two to four
digits.  \d{1,2} greedy followed by a separator forces the digit run to
have length 1 or 2; the final \d{2,4} is greedy with nothing after it. -/
def numericDateAt (l : List Char) : Option (List Char) :=
  let d1 := l.takeWhile Char.isDigit
  if d1.length = 0 ∨ 2 < d1.length then none
  else
    match l.drop d1.length with
    | s1 :: r1 =>
      if s1 = '/' ∨ s1 = '-' then
        let d2 := r1.takeWhile Char.isDigit
        if d2.length = 0 ∨ 2 < d2.length then none
        else
          match r1.drop d2.length with
          | s2 :: r2 =>
            if s2 = '/' ∨ s2 = '-' then
              let d3 := r2.takeWhile Char.isDigit
              if d3.length < 2 then none
              else some (d1 ++ s1 :: d2 ++ s2 :: d3.take 4)
            else none
          | [] => none
      else none
    | [] => none

/-- Group \w+\s+\d{1,2},?\s+\d{4}, second alternative of the date patterns
(worded dates such as April 13, 2025).  All quantifiers are effectively
deterministic because the involved character classes are disjoint. -/
def wordedDateAt (l : List Char) : Option (List Char) :=
  let w := l.takeWhile isWordChar
  if w.isEmpty then none
  else
    let r := l.drop w.length
    let sp1 := r.takeWhile pySpc
    if sp1.isEmpty then none
    else
      let r1 := r.drop sp1.length
      let d := r1.takeWhile Char.isDigit
      if d.length = 0 ∨ 2 < d.length then none
      else
        let r2 := r1.drop d.length
        let comma : List Char := match r2 with | ',' :: _ => [','] | _ => []
        let r3 := r2.drop comma.length
        let sp2 := r3.takeWhile pySpc
        if sp2.isEmpty then none
        else
          let r4 := r3.drop sp2.length
          let d4 := r4.takeWhile Char.isDigit
          if d4.length < 4 then none
          else some (w ++ sp1 ++ d ++ comma ++ sp2 ++ d4.take 4)

/-- The alternation of the two date-group forms, numeric first. -/
def dateGroupAt (l : List Char) : Option (List Char) :=
  (numericDateAt l).orElse (fun _ => wordedDateAt l)

/-- Optional (?:\s*[ap]\.?m\.?)? suffix of the time groups, case-insensitive;
returns the consumed characters, or [] when the suffix does not match. -/
def ampmAt (l : List Char) : List Char :=
  let sp := l.takeWhile pySpc
  match l.drop sp.length with
  | c :: r1 =>
    if lowC c = 'a' ∨ lowC c = 'p' then
      let dot1 : List Char := match r1 with | '.' :: _ => ['.'] | _ => []
      match r1.drop dot1.length with
      | m :: r3 =>
        if lowC m = 'm' then
          let dot2 : List Char := match r3 with | '.' :: _ => ['.'] | _ => []
          sp ++ c :: (dot1 ++ m :: dot2)
        else []
      | [] => []
    else []
  | [] => []

/-- One backtracking alternative of the time groups: exactly dcount leading
digits, a colon when colon is true, then exactly two digits, then the
optional am/pm suffix. -/
def tryTimeGroup (dcount : Nat) (colon : Bool) (l : List Char) : Option (List Char) :=
  let d := l.take dcount
  let r := l.drop dcount
  if d.length = dcount ∧ d.all Char.isDigit then
    match (if colon then (match r with | ':' :: t => some t | _ => none) else some r) with
    | some r2 =>
      let m := r2.take 2
      if m.length = 2 ∧ m.all Char.isDigit then
        some (d ++ (if colon then [':'] else []) ++ m ++ ampmAt (r2.drop 2))
      else none
    | none => none
  else none

/-- Time group \d{1,2}:\d{2}(?:\s*[ap]\.?m\.?)? of the top-level parser:
the colon is mandatory.  Backtracking order of \d{1,2}: two digits first. -/
def timeGroupColonAt (l : List Char) : Option (List Char) :=
  firstSome [tryTimeGroup 2 true l, tryTimeGroup 1 true l]

/-- Time group \d{1,2}:?\d{2}(?:\s*[ap]\.?m\.?)? of the archive parser:
optional colon, greedy; backtracking order (2,:), (2,), (1,:), (1,). -/
def timeGroupOptColonAt (l : List Char) : Option (List Char) :=
  firstSome [tryTimeGroup 2 true l, tryTimeGroup 2 false l,
             tryTimeGroup 1 true l, tryTimeGroup 1 false l]

/-! ### Raw records of the free-text parsers -/

/-- A record accumulated by parse_text_manually; the Python dict keys
CASE #, DATE, TIME, LOCATION, OFFENSE become optional fields, with a
missing key modelled none. -/
structure RawRec where
  case_num : Option String := none
  date : Option String := none
  time : Option String := none
  location : Option String := none
  offense : Option String := none
deriving DecidableEq, Repr

/-- The empty accumulator {} of the parsers. -/
def emptyRec : RawRec := {}

/-- len(current_record): the number of keys present. -/
def countFields (r : RawRec) : Nat :=
  [r.case_num, r.date, r.time, r.location, r.offense].countP (fun o => o.isSome)

/-- Overwriting assignment record[DATE] = g of the top-level parser. -/
def owDate (r : RawRec) (g : Option String) : RawRec :=
  match g with | some v => { r with date := some v } | none => r

/-- Overwriting assignment record[TIME] = g of the top-level parser. -/
def owTime (r : RawRec) (g : Option String) : RawRec :=
  match g with | some v => { r with time := some v } | none => r

/-- Overwriting assignment record[LOCATION] = g of the top-level parser. -/
def owLoc (r : RawRec) (g : Option String) : RawRec :=
  match g with | some v => { r with location := some v } | none => r

/-- Overwriting assignment record[OFFENSE] = g of the top-level parser. -/
def owOff (r : RawRec) (g : Option String) : RawRec :=
  match g with | some v => { r with offense := some v } | none => r

/-- Guarded assignment of the archive parser: set DATE to the stripped
group only when the key is not yet present. -/
def gsDate (r : RawRec) (g : Option String) : RawRec :=
  match g with
  | some v => if r.date = none then { r with date := some (pyStrip v) } else r
  | none => r

/-- Guarded assignment of TIME in the archive parser. -/
def gsTime (r : RawRec) (g : Option String) : RawRec :=
  match g with
  | some v => if r.time = none then { r with time := some (pyStrip v) } else r
  | none => r

/-- Guarded assignment of LOCATION in the archive parser. -/
def gsLoc (r : RawRec) (g : Option String) : RawRec :=
  match g with
  | some v => if r.location = none then { r with location := some (pyStrip v) } else r
  | none => r

/-- Guarded assignment of OFFENSE in the archive parser. -/
def gsOff (r : RawRec) (g : Option String) : RawRec :=
  match g with
  | some v => if r.offense = none then { r with offense := some (pyStrip v) } else r
  | none => r

/-! ### src/extract_data.py (top-level variant) -/

namespace Extract

/-- Pattern case\s*#?:\s*(\S+) at one position: after the literal and
spaces, an optional hash must be followed by the mandatory colon (if the
hash is present but the colon is not, dropping the optional hash cannot
save the match because the colon test then falls on the hash). -/
def caseAt (l : List Char) : Option (List Char) :=
  match stripPrefixCI "case" l with
  | none => none
  | some r =>
    let r1 := r.dropWhile pySpc
    match (match r1 with
           | '#' :: ':' :: t => some t
           | ':' :: t => some t
           | _ => none) with
    | none => none
    | some r2 =>
      let g := (r2.dropWhile pySpc).takeWhile (fun c => !(pySpc c))
      if g.isEmpty then none else some g

/-- Pattern date\s*:\s*(numeric or worded date) at one position. -/
def dateAt (l : List Char) : Option (List Char) :=
  match stripPrefixCI "date" l with
  | none => none
  | some r =>
    match r.dropWhile pySpc with
    | ':' :: t => dateGroupAt (t.dropWhile pySpc)
    | _ => none

/-- Pattern time\s*:\s*(\d{1,2}:\d{2}(?:\s*[ap]\.?m\.?)?) at one position. -/
def timeAt (l : List Char) : Option (List Char) :=
  match stripPrefixCI "time" l with
  | none => none
  | some r =>
    match r.dropWhile pySpc with
    | ':' :: t => timeGroupColonAt (t.dropWhile pySpc)
    | _ => none

/-- Pattern location\s*:\s*(.*) at one position; the group may be empty. -/
def locAt (l : List Char) : Option (List Char) :=
  match stripPrefixCI "location" l with
  | none => none
  | some r =>
    match r.dropWhile pySpc with
    | ':' :: t => some (t.dropWhile pySpc)
    | _ => none

/-- Pattern offense\s*:\s*(.*) at one position; the group may be empty. -/
def offAt (l : List Char) : Option (List Char) :=
  match stripPrefixCI "offense" l with
  | none => none
  | some r =>
    match r.dropWhile pySpc with
    | ':' :: t => some (t.dropWhile pySpc)
    | _ => none

/-- case_pattern.search(line). -/
def caseSearch (s : String) : Option String :=
  (scanWith caseAt s.toList).map (fun g => ⟨g⟩)

/-- date_pattern.search(line). -/
def dateSearch (s : String) : Option String :=
  (scanWith dateAt s.toList).map (fun g => ⟨g⟩)

/-- time_pattern.search(line). -/
def timeSearch (s : String) : Option String :=
  (scanWith timeAt s.toList).map (fun g => ⟨g⟩)

/-- location_pattern.search(line). -/
def locSearch (s : String) : Option String :=
  (scanWith locAt s.toList).map (fun g => ⟨g⟩)

/-- offense_pattern.search(line). -/
def offSearch (s : String) : Option String :=
  (scanWith offAt s.toList).map (fun g => ⟨g⟩)

/-- One line of the top-level parse_text_manually: a case match flushes any
non-empty accumulator and starts a new record holding only the case number
(the continue skips the other patterns on that line); otherwise the four
field patterns each assign their group, overwriting any stored value. -/
def rootStep (s : List RawRec × RawRec) (line : String) :
    List RawRec × RawRec :=
  let l := pyStrip line
  if l = "" then s
  else
    match caseSearch l with
    | some c =>
      let flushed := if s.2 ≠ emptyRec then s.1 ++ [s.2] else s.1
      (flushed, { emptyRec with case_num := some c })
    | none =>
      let cur := owOff (owLoc (owTime (owDate s.2 (dateSearch l)) (timeSearch l))
                          (locSearch l)) (offSearch l)
      (s.1, cur)

/-- parse_text_manually of src/extract_data.py: fold the lines, then flush
a final non-empty accumulator. -/
def parse_text_manually (text : String) : List RawRec :=
  let s := (splitLines text).foldl rootStep ([], emptyRec)
  if s.2 ≠ emptyRec then s.1 ++ [s.2] else s.1

end Extract

/-! ### src/archive/extract_data.py -/

namespace Archive

/-- The header keyword list of the archive find_header_row. -/
def header_keywords : List String :=
  ["case", "incident", "date", "time", "offense", "location", "address"]

/-- Number of cells of a row that are strings and contain at least one
header keyword, case-insensitively (the matches count of find_header_row). -/
def kwCells (row : List (Option String)) : Nat :=
  (row.filter (fun c =>
    match c with
    | some s => header_keywords.any (fun k => hasKwCI k s)
    | none => false)).length

/-- Indexed scan of find_header_row: the first row that is non-empty and
has at least 2 keyword-bearing cells wins. -/
def fhrGo (i : Nat) : List (List (Option String)) → Option Nat
  | [] => none
  | row :: rest =>
    if row ≠ [] ∧ 2 ≤ kwCells row then some i else fhrGo (i + 1) rest

/-- find_header_row of the archive extractor. -/
def find_header_row (table : List (List (Option String))) : Option Nat :=
  fhrGo 0 table

/-- The relaxed key-field check of the archive table loop. -/
def common_keys : List String := ["CASE #", "DATE", "TIME", "LOCATION", "OFFENSE"]

/-- The per-table part of the archive extract_tables_from_pdf: skip an
empty table, skip the table when no header row is found, otherwise zip
every later row against the stripped header cells, skipping blank rows,
rows with no non-blank cell, and rows without any common key field. -/
def processTable (table : List (List (Option String))) :
    List (List (String × String)) :=
  if table.isEmpty || table.all List.isEmpty then []
  else
    match find_header_row table with
    | none => []
    | some hIdx =>
      let headers := (table.getD hIdx []).map (fun h => pyStrip (h.getD ""))
      (table.drop (hIdx + 1)).filterMap (fun row =>
        if row.isEmpty || row.all (fun c => pyStrip (c.getD "") = "") then none
        else
          let record := (row.enum).foldl
            (fun (rec : List (String × String)) (p : Nat × Option String) =>
              match p.2 with
              | some s =>
                if p.1 < headers.length ∧ s ≠ "" ∧ pyStrip s ≠ "" then
                  aupdate rec (headers.getD p.1 "") (pyStrip s)
                else rec
              | none => rec) []
          if record.isEmpty then none
          else if common_keys.any (fun k => (alookup record k).isSome) then
            some record
          else none)

/-- The table loop over one page: records of each table in order. -/
def extractTablesList (tables : List (List (List (Option String)))) :
    List (List (String × String)) :=
  (tables.map processTable).flatten

/-- Pattern (?:case|incident)\s*#?[:]?\s*(\S+) at one position.  Both the
hash and the colon are optional, so failed greedy choices backtrack: the
candidate rests are tried in the preference order of the engine. -/
def caseAt (l : List Char) : Option (List Char) :=
  match (stripPrefixCI "case" l).orElse (fun _ => stripPrefixCI "incident" l) with
  | none => none
  | some r =>
    let r1 := r.dropWhile pySpc
    let cands : List (List Char) :=
      match r1 with
      | '#' :: ':' :: t => [t, ':' :: t, '#' :: ':' :: t]
      | '#' :: t => [t, '#' :: t]
      | ':' :: t => [t, ':' :: t]
      | _ => [r1]
    firstSome (cands.map (fun c =>
      let g := (c.dropWhile pySpc).takeWhile (fun ch => !(pySpc ch))
      if g.isEmpty then none else some g))

/-- Pattern (?:date|occurred)\s*[:]?\s*(numeric or worded date). -/
def dateAt (l : List Char) : Option (List Char) :=
  match (stripPrefixCI "date" l).orElse (fun _ => stripPrefixCI "occurred" l) with
  | none => none
  | some r =>
    let r1 := r.dropWhile pySpc
    let cands : List (List Char) :=
      match r1 with
      | ':' :: t => [t, ':' :: t]
      | _ => [r1]
    firstSome (cands.map (fun c => dateGroupAt (c.dropWhile pySpc)))

/-- Pattern time\s*[:]?\s*(\d{1,2}:?\d{2}(?:\s*[ap]\.?m\.?)?). -/
def timeAt (l : List Char) : Option (List Char) :=
  match stripPrefixCI "time" l with
  | none => none
  | some r =>
    let r1 := r.dropWhile pySpc
    let cands : List (List Char) :=
      match r1 with
      | ':' :: t => [t, ':' :: t]
      | _ => [r1]
    firstSome (cands.map (fun c => timeGroupOptColonAt (c.dropWhile pySpc)))

/-- Pattern (?:location|address)\s*[:]?\s*(.*); the group always matches,
possibly empty, so the first candidate always wins. -/
def locAt (l : List Char) : Option (List Char) :=
  match (stripPrefixCI "location" l).orElse (fun _ => stripPrefixCI "address" l) with
  | none => none
  | some r =>
    match r.dropWhile pySpc with
    | ':' :: t => some (t.dropWhile pySpc)
    | r1 => some (r1.dropWhile pySpc)

/-- Pattern (?:offense|crime|incident type)\s*[:]?\s*(.*). -/
def offAt (l : List Char) : Option (List Char) :=
  match (stripPrefixCI "offense" l).orElse (fun _ =>
        (stripPrefixCI "crime" l).orElse (fun _ => stripPrefixCI "incident type" l)) with
  | none => none
  | some r =>
    match r.dropWhile pySpc with
    | ':' :: t => some (t.dropWhile pySpc)
    | r1 => some (r1.dropWhile pySpc)

/-- case_pattern.search(line) of the archive parser. -/
def caseSearch (s : String) : Option String :=
  (scanWith caseAt s.toList).map (fun g => ⟨g⟩)

/-- date_pattern.search(line) of the archive parser. -/
def dateSearch (s : String) : Option String :=
  (scanWith dateAt s.toList).map (fun g => ⟨g⟩)

/-- time_pattern.search(line) of the archive parser. -/
def timeSearch (s : String) : Option String :=
  (scanWith timeAt s.toList).map (fun g => ⟨g⟩)

/-- location_pattern.search(line) of the archive parser. -/
def locSearch (s : String) : Option String :=
  (scanWith locAt s.toList).map (fun g => ⟨g⟩)

/-- offense_pattern.search(line) of the archive parser. -/
def offSearch (s : String) : Option String :=
  (scanWith offAt s.toList).map (fun g => ⟨g⟩)

/-- One line of the archive parse_text_manually.  A case match flushes an
accumulator holding more than just a case number, starts a fresh record
with the stripped case value, and merges the other fields found on the
same line; on a non-case line the fields are merged into a non-empty
accumulator, each only when its key is not yet present. -/
def archStep (s : List RawRec × RawRec) (line : String) :
    List RawRec × RawRec :=
  let l := pyStrip line
  if l = "" then s
  else
    match caseSearch l with
    | some c =>
      let flushed :=
        if s.2 ≠ emptyRec ∧ 1 < countFields s.2 then s.1 ++ [s.2] else s.1
      let r0 : RawRec := { emptyRec with case_num := some (pyStrip c) }
      let r0 := gsOff (gsLoc (gsTime (gsDate r0 (dateSearch l)) (timeSearch l))
                        (locSearch l)) (offSearch l)
      (flushed, r0)
    | none =>
      if s.2 ≠ emptyRec then
        let cur := gsOff (gsLoc (gsTime (gsDate s.2 (dateSearch l)) (timeSearch l))
                           (locSearch l)) (offSearch l)
        (s.1, cur)
      else s

/-- parse_text_manually of src/archive/extract_data.py. -/
def parse_text_manually (text : String) : List RawRec :=
  let s := (splitLines text).foldl archStep ([], emptyRec)
  if s.2 ≠ emptyRec ∧ 1 < countFields s.2 then s.1 ++ [s.2] else s.1

end Archive

/-! ### Remaining pieces of src/extract_data.py -/

namespace Extract

/-- The top-level find_header_row: the first row with any string cell
containing case, offense or location, case-insensitively. -/
def fhrGo (i : Nat) : List (List (Option String)) → Option Nat
  | [] => none
  | row :: rest =>
    if row ≠ [] ∧ row.any (fun c =>
        match c with
        | some s => hasKwCI "case" s || hasKwCI "offense" s || hasKwCI "location" s
        | none => false) then some i
    else fhrGo (i + 1) rest

/-- find_header_row of src/extract_data.py. -/
def find_header_row (table : List (List (Option String))) : Option Nat :=
  fhrGo 0 table

/-- normalize_categories of src/extract_data.py: empty or non-string input
is Unknown, otherwise the first keyword bucket of the fixed if-elif chain
that matches the lower-cased offense text, with Other as the fallback. -/
def normalize_categories (offense : String) : String :=
  if offense = "" then "Unknown"
  else
    let o := lowS offense.toList
    let has := fun (t : String) => listHas t.toList o
    if ["theft", "burglary", "robbery", "shoplifting", "stolen"].any has then "Theft"
    else if ["assault", "battery", "fight", "violence"].any has then "Assault"
    else if ["drug", "narcotic", "possession"].any has then "Drugs"
    else if ["dui", "driving under", "alcohol", "intoxicated"].any has then "DUI/Alcohol"
    else if ["vandalism", "graffiti", "property damage"].any has then "Vandalism"
    else if ["traffic", "collision", "accident", "vehicle"].any has then "Traffic"
    else if ["mental", "welfare", "health"].any has then "Mental Health"
    else if ["trespass", "suspicious", "disturb"].any has then "Disturbance"
    else "Other"

/-- The closed output set of normalize_categories. -/
def categoryList : List String :=
  ["Unknown", "Theft", "Assault", "Drugs", "DUI/Alcohol", "Vandalism",
   "Traffic", "Mental Health", "Disturbance", "Other"]

end Extract

/-! ### Step 4: enrichment (src/pipeline/steps/step_4_process_data.py) -/

namespace Step4

/-- The finalized offense category list OFFENSE_CATEGORIES. -/
def OFFENSE_CATEGORIES : List String :=
  ["Theft", "Burglary", "Vehicle Crime", "Traffic Incidents", "Property Crime",
   "Violent/Person Crime", "Fraud/Financial Crime", "Public Order/Disturbance",
   "Warrant/Arrest", "Administrative/Other"]

/-- Outcome of one Bedrock categorisation call: a parsed JSON object, a
response from which no JSON object could be extracted (or empty content),
or an exception from the API. -/
inductive LLMResult where
  | ok (m : List (String × String))
  | malformed
  | failure
deriving DecidableEq, Repr

/-- get_offense_categories_from_llm: empty requests short-circuit; an API
error maps every requested type to Administrative/Other; a response without
a JSON object yields an empty map; otherwise the parsed object (with dict
key semantics) is validated: requested types missing from it are added with
Administrative/Other (modelled in request order, the Python set order being
unspecified), and any value outside the category list is replaced by
Administrative/Other. -/
def get_offense_categories_from_llm (requested : List String) (resp : LLMResult) :
    List (String × String) :=
  if requested.isEmpty then []
  else
    match resp with
    | .failure => requested.map (fun ot => (ot, "Administrative/Other"))
    | .malformed => []
    | .ok m =>
      let m0 := aupdateAll [] m
      let keys := m0.map (fun p => p.1)
      let missing := requested.filter (fun k => ¬ keys.contains k)
      let m1 := m0 ++ missing.map (fun k => (k, "Administrative/Other"))
      m1.map (fun p =>
        if p.2 ∈ OFFENSE_CATEGORIES then p else (p.1, "Administrative/Other"))

/-- The offense types of one file needing categorisation: the unique
stripped non-empty offense strings that miss the cache. -/
def offensesToCategorize (cache : List (String × String)) (offCol : List String) :
    List String :=
  (uniqueFirst offCol).filter (fun o => o ≠ "" && (alookup cache o).isNone)

/-- The offense-categorisation block of process_csv: call the model for the
uncached types and merge the returned map into the cache with dict.update. -/
def offenseStep (cache : List (String × String)) (offCol : List String)
    (resp : LLMResult) : List (String × String) :=
  aupdateAll cache (get_offense_categories_from_llm (offensesToCategorize cache offCol) resp)

/-- One candidate of a geocoding response; only the fields the model
needs downstream. -/
structure Place where
  formattedAddress : String
  types : List String
deriving DecidableEq, Repr

/-- The geocoding cache: full query string to stored API result, where the
stored result is the places list or none for a failed call (negative
results are cached too). -/
abbrev GeoCache : Type := List (String × Option (List Place))

/-- The fixed locality suffix appended to each location. -/
def geoQuery (loc : String) : String := loc ++ ", Palo Alto, CA"

/-- One iteration of the geocoding loop of process_csv: a blank location
never reaches the service; a cached query is reused; otherwise the
external service (modelled as a function from query to result) is called,
the result is stored — negative results included — and the call counter
increments. -/
def geoStep (api : String → Option (List Place)) (st : GeoCache × Nat)
    (loc : String) : GeoCache × Nat :=
  if pyStrip loc = "" then st
  else
    match alookup st.1 (geoQuery loc) with
    | some _ => st
    | none => (aupdate st.1 (geoQuery loc) (api (geoQuery loc)), st.2 + 1)

/-- The geocoding loop of process_csv over the unique locations. -/
def geoLoop (cache : GeoCache) (locs : List String)
    (api : String → Option (List Place)) : GeoCache × Nat :=
  locs.foldl (geoStep api) (cache, 0)

/-- An input row of one per-file CSV: the location cell (none when NaN)
and the raw offense_type cell. -/
structure InRow where
  location : Option String
  offense : String
deriving DecidableEq, Repr

/-- A row of the processed output file. -/
structure OutRow where
  location : Option String
  offense : String
  category : String
  geo : Option (List Place)
deriving DecidableEq, Repr

/-- process_csv on one file: strip the offense column, resolve the missing
offense categories through the model and the cache, attach the category
column (with the fillna default Administrative/Other), drop rows whose
location is missing, geocode the unique remaining locations through the
cache, and emit the kept rows with their enrichment.  Returns the output
rows, both updated caches and the number of live geocoding calls. -/
def process_csv (offCache : List (String × String)) (geoCache : GeoCache)
    (rows : List InRow) (resp : LLMResult) (api : String → Option (List Place)) :
    List OutRow × List (String × String) × GeoCache × Nat :=
  let offCol := rows.map (fun r => pyStrip r.offense)
  let offCacheA := offenseStep offCache offCol resp
  let kept := rows.filter (fun r => r.location.isSome)
  let locs := uniqueFirst (kept.map (fun r => r.location.getD ""))
  let geoRes := geoLoop geoCache locs api
  let outs := kept.map (fun r =>
    let loc := r.location.getD ""
    { location := r.location
      offense := pyStrip r.offense
      category := (alookup offCacheA (pyStrip r.offense)).getD "Administrative/Other"
      geo := if pyStrip loc = "" then none
             else (alookup geoRes.1 (geoQuery loc)).getD none : OutRow })
  (outs, offCacheA, geoRes.1, geoRes.2)

end Step4

/-! ### src/analysis/analyze_csv_data.py: safety-score aggregation -/

namespace CsvAnalysis

/-- One cleaned incident row as analyze_data sees it: the derived street
(none when extraction returned None) and the offense category. -/
structure SRow where
  street : Option String
  category : String
deriving DecidableEq, Repr

/-- The fixed severity_weights table of analyze_data. -/
def severity_weights : List (String × Nat) :=
  [("Assault", 10), ("Theft", 7), ("Property Damage", 5), ("Drugs/Alcohol", 4),
   ("Fraud", 3), ("Traffic", 2), ("Noise/Disturbance", 2), ("Mental Health", 1),
   ("Warrant", 3), ("Other", 2)]

/-- The rows of one street (df[df.street == street]). -/
def streetRows (rows : List SRow) (st : String) : List SRow :=
  rows.filter (fun r => r.street = some st)

/-- incident_count of one street. -/
def streetCount (rows : List SRow) (st : String) : Nat :=
  (streetRows rows st).length

/-- category_count of one street and category. -/
def countCat (rows : List SRow) (st : String) (cat : String) : Nat :=
  ((streetRows rows st).filter (fun r => r.category = cat)).length

/-- weighted_score: the loop over severity_weights.items(). -/
def weighted_score (rows : List SRow) (st : String) : Nat :=
  (severity_weights.map (fun p => countCat rows st p.1 * p.2)).sum

/-- df.street.dropna().unique() in first-appearance order. -/
def uniqueStreets (rows : List SRow) : List String :=
  uniqueFirst (rows.filterMap (fun r => r.street))

/-- The street_safety dictionary: per street with a positive incident
count, the safety score (weighted score over incident count, as an exact
rational standing in for the float division) and the incident count. -/
def safety_scores (rows : List SRow) : List (String × ℚ × Nat) :=
  (uniqueStreets rows).filterMap (fun st =>
    let n := streetCount rows st
    if 0 < n then some (st, ((weighted_score rows st : ℚ) / (n : ℚ)), n) else none)

/-- The ranking input: safety_df filtered to incident_count >= 2. -/
def rankedScores (rows : List SRow) : List (String × ℚ × Nat) :=
  (safety_scores rows).filter (fun t => 2 ≤ t.2.2)

end CsvAnalysis

/-! ### src/analyze_data.py: time-of-day bucketing -/

namespace AnalyzeData

/-- The hour regex (\d{1,2}): at one position: one or two digits directly
followed by a colon; a maximal digit run longer than two cannot satisfy
the colon whatever \d{1,2} takes, so the attempt fails and the search
moves right. -/
def hourColonAt (l : List Char) : Option (List Char) :=
  let d := l.takeWhile Char.isDigit
  if d.length = 0 ∨ 2 < d.length then none
  else
    match l.drop d.length with
    | ':' :: _ => some d
    | _ => none

/-- The PM test: PM or P.M occurs in the upper-cased time string. -/
def isPM (s : String) : Bool :=
  listHas "PM".toList (upS s.toList) || listHas "P.M".toList (upS s.toList)

/-- categorize_time of analyze_data.clean_data: search for an hour before
a colon; without one the bucket is Unknown; otherwise add 12 to a PM hour
below 12 and cut into the fixed bands. -/
def categorize_time (time_str : String) : String :=
  match scanWith hourColonAt time_str.toList with
  | none => "Unknown"
  | some d =>
    let h0 := digitsToNat d
    let hour := if isPM time_str ∧ h0 < 12 then h0 + 12 else h0
    if 5 ≤ hour ∧ hour < 12 then "Morning"
    else if 12 ≤ hour ∧ hour < 17 then "Afternoon"
    else if 17 ≤ hour ∧ hour < 22 then "Evening"
    else "Night"

/-- The hour categorize_time works with, when one parses: the regex group
value after the PM adjustment. -/
def parsedHour (s : String) : Option Nat :=
  (scanWith hourColonAt s.toList).map (fun d =>
    let h0 := digitsToNat d
    if isPM s ∧ h0 < 12 then h0 + 12 else h0)

/-- The fixed bands in the words of the specification: hours in 05-11 are
Morning, 12-16 Afternoon, 17-21 Evening, everything else Night. -/
def bandSpec (h : Nat) : String :=
  if 5 ≤ h ∧ h < 12 then "Morning"
  else if 12 ≤ h ∧ h < 17 then "Afternoon"
  else if 17 ≤ h ∧ h < 22 then "Evening"
  else "Night"

end AnalyzeData

/-! ### Theorems: deduplication (claims C1 and C8) -/

namespace Step5

theorem specDedup_nil : specDedup [] = [] := by
  rw [specDedup.eq_def]

theorem specDedup_cons (r : WebRec) (rs : List WebRec) :
    specDedup (r :: rs) =
      r :: specDedup (rs.filter (fun s => dedupKey s ≠ dedupKey r)) := by
  rw [specDedup.eq_def]

theorem filter_notmem_cons (rs : List WebRec) (k : Option String × Option String)
    (seen : List (Option String × Option String)) :
    rs.filter (fun s => dedupKey s ∉ k :: seen) =
      (rs.filter (fun s => dedupKey s ∉ seen)).filter (fun s => dedupKey s ≠ k) := by
  induction rs with
  | nil => rfl
  | cons s t ih =>
    by_cases hk : dedupKey s = k
    · subst hk
      by_cases hs : dedupKey s ∈ seen <;>
        simp [List.filter_cons, hs, ih]
    · by_cases hs : dedupKey s ∈ seen <;>
        simp [List.filter_cons, hk, hs, ih]

theorem ddGo_eq_specDedup (l : List WebRec) :
    ∀ seen, ddGo seen l = specDedup (l.filter (fun r => dedupKey r ∉ seen)) := by
  induction l with
  | nil => intro seen; simp [ddGo, specDedup_nil]
  | cons r rs ih =>
    intro seen
    by_cases h : dedupKey r ∈ seen
    · simp [ddGo, h, ih, List.filter_cons]
    · have hd : decide (dedupKey r ∉ seen) = true := by simpa using h
      simp only [ddGo, if_neg h, List.filter_cons, hd, if_true]
      rw [specDedup_cons, ih (dedupKey r :: seen), filter_notmem_cons]

theorem ddGo_mem_key (l : List WebRec) :
    ∀ seen r, r ∈ ddGo seen l → dedupKey r ∉ seen := by
  induction l with
  | nil => intro seen r hr; simp [ddGo] at hr
  | cons a t ih =>
    intro seen r hr
    by_cases h : dedupKey a ∈ seen
    · exact ih seen r (by simpa [ddGo, h] using hr)
    · simp only [ddGo, if_neg h, List.mem_cons] at hr
      rcases hr with rfl | hr
      · exact h
      · intro hmem
        exact ih _ r hr (List.mem_cons_of_mem _ hmem)

theorem ddGo_pairwise (l : List WebRec) :
    ∀ seen, (ddGo seen l).Pairwise (fun a b => dedupKey a ≠ dedupKey b) := by
  induction l with
  | nil => intro seen; simp [ddGo]
  | cons a t ih =>
    intro seen
    by_cases h : dedupKey a ∈ seen
    · simpa [ddGo, h] using ih seen
    · simp only [ddGo, if_neg h]
      refine List.Pairwise.cons ?_ (ih _)
      intro b hb
      have := ddGo_mem_key t (dedupKey a :: seen) b hb
      simp only [List.mem_cons, not_or] at this
      exact fun hab => this.1 hab.symm

theorem ddGo_fixed (l : List WebRec) :
    ∀ seen, (∀ r ∈ l, dedupKey r ∉ seen) →
      l.Pairwise (fun a b => dedupKey a ≠ dedupKey b) → ddGo seen l = l := by
  induction l with
  | nil => intro seen _ _; rfl
  | cons a t ih =>
    intro seen hfresh hpw
    have ha : dedupKey a ∉ seen := hfresh a (List.mem_cons_self _ _)
    simp only [ddGo, if_neg ha, List.cons.injEq, true_and]
    refine ih _ ?_ (List.Pairwise.of_cons hpw)
    intro r hr
    simp only [List.mem_cons, not_or]
    exact ⟨fun h => (List.rel_of_pairwise_cons hpw hr) h.symm,
           hfresh r (List.mem_cons_of_mem _ hr)⟩

end Step5

/-- C1 (amended).  The combined-set deduplication keeps, for every
(case_number, date) pair, exactly the first record bearing that pair and
drops every later one — with no special treatment of empty or missing case
numbers: the pair is compared as an ordinary value, so the records of the
spec example with equal key (25-01409, 4/10/2025) and different source
files collapse to the first, and two records whose case numbers are both
empty collapse in the same way whenever their dates are also equal,
remaining separate only when their dates differ. -/
theorem dedup_first_seen_per_key :
    (∀ l, Step5.drop_duplicates l = Step5.specDedup l)
    ∧ Step5.drop_duplicates
        [⟨some "25-01409", some "4/10/2025", "a.csv"⟩,
         ⟨some "25-01409", some "4/10/2025", "b.csv"⟩] =
        [⟨some "25-01409", some "4/10/2025", "a.csv"⟩]
    ∧ Step5.drop_duplicates
        [⟨some "", some "4/10/2025", "a.csv"⟩, ⟨some "", some "4/11/2025", "b.csv"⟩] =
        [⟨some "", some "4/10/2025", "a.csv"⟩, ⟨some "", some "4/11/2025", "b.csv"⟩] := by
  refine ⟨fun l => ?_, by decide, by decide⟩
  rw [Step5.drop_duplicates, Step5.ddGo_eq_specDedup]
  have : l.filter (fun r => Step5.dedupKey r ∉ ([] : List _)) = l :=
    List.filter_eq_self.mpr (by simp)
  rw [this]

/-- C1 (counterexample).  Two records that both carry an empty case number
and the same date are merged by the deduplication: only the first survives,
contradicting the claim that two empty-case-number records are never merged
with each other. -/
theorem dedup_empty_case_merged :
    Step5.drop_duplicates
        [⟨some "", some "4/10/2025", "a.csv"⟩, ⟨some "", some "4/10/2025", "b.csv"⟩] =
      [⟨some "", some "4/10/2025", "a.csv"⟩]
    ∧ (Step5.drop_duplicates
        [⟨some "", some "4/10/2025", "a.csv"⟩,
         ⟨some "", some "4/10/2025", "b.csv"⟩]).length ≠ 2 := by
  exact ⟨by decide, by decide⟩

/-- C8.  The keep-first deduplication by (case_number, date) is idempotent:
applied to its own output it drops nothing further. -/
theorem dedup_idempotent :
    ∀ l, Step5.drop_duplicates (Step5.drop_duplicates l) = Step5.drop_duplicates l := by
  intro l
  refine Step5.ddGo_fixed _ [] (by simp) ?_
  exact Step5.ddGo_pairwise l []

/-! ### Theorems: time conversion (claim C9) -/

/-- C9 (amended).  The website time conversion first cuts the value at its
first dot (undoing float rendering such as 1200.0); when what remains is a
4-digit digit string with hours 00-23 and minutes 00-59 the emitted value
is hours*60+minutes, and in every other case (missing, non-numeric, wrong
length, out of range) it is 0; consequently every emitted time value lies
in [0, 1439]. -/
theorem time_minutes_spec :
    ∀ s, Step5.timeMinutesFilled s = Step5.specTimeMinutes s ∧
      Step5.timeMinutesFilled s ≤ 1439 := by
  intro s
  have core : ∀ t : String, (Step5.timeCore t).getD 0 = Step5.specTimeCore t ∧
      (Step5.timeCore t).getD 0 ≤ 1439 := by
    intro t
    unfold Step5.timeCore Step5.specTimeCore
    by_cases hA : t = "" ∨ t = "nan" ∨ t = "NaT"
    · have hne : ¬ (t.toList.length = 4 ∧ t.toList.all Char.isDigit ∧ t ≠ "" ∧
          t ≠ "nan" ∧ t ≠ "NaT" ∧ digitsToNat (t.toList.take 2) ≤ 23 ∧
          digitsToNat (t.toList.drop 2) ≤ 59) := by
        rintro ⟨-, -, h3, h4, h5, -, -⟩
        rcases hA with h | h | h
        exacts [h3 h, h4 h, h5 h]
      constructor
      · rw [if_pos hA, if_neg hne]; rfl
      · rw [if_pos hA]; exact Nat.zero_le _
    · by_cases hB : t.toList.length ≠ 4 ∨ ¬ t.toList.all Char.isDigit
      · have hne : ¬ (t.toList.length = 4 ∧ t.toList.all Char.isDigit ∧ t ≠ "" ∧
            t ≠ "nan" ∧ t ≠ "NaT" ∧ digitsToNat (t.toList.take 2) ≤ 23 ∧
            digitsToNat (t.toList.drop 2) ≤ 59) := by
          rintro ⟨h1, h2, -⟩
          rcases hB with h | h
          exacts [h h1, h h2]
        constructor
        · rw [if_neg hA, if_pos hB, if_neg hne]; rfl
        · rw [if_neg hA, if_pos hB]; exact Nat.zero_le _
      · have hA' := hA; have hB' := hB
        push_neg at hA' hB'
        by_cases hC : digitsToNat (t.toList.take 2) ≤ 23 ∧
            digitsToNat (t.toList.drop 2) ≤ 59
        · have hyes : t.toList.length = 4 ∧ t.toList.all Char.isDigit ∧ t ≠ "" ∧
              t ≠ "nan" ∧ t ≠ "NaT" ∧ digitsToNat (t.toList.take 2) ≤ 23 ∧
              digitsToNat (t.toList.drop 2) ≤ 59 :=
            ⟨hB'.1, hB'.2, hA'.1, hA'.2.1, hA'.2.2, hC.1, hC.2⟩
          constructor
          · rw [if_neg hA, if_neg hB, if_pos hC, if_pos hyes]; rfl
          · rw [if_neg hA, if_neg hB, if_pos hC]
            simp only [Option.getD_some]
            omega
        · have hne : ¬ (t.toList.length = 4 ∧ t.toList.all Char.isDigit ∧ t ≠ "" ∧
              t ≠ "nan" ∧ t ≠ "NaT" ∧ digitsToNat (t.toList.take 2) ≤ 23 ∧
              digitsToNat (t.toList.drop 2) ≤ 59) := by
            rintro ⟨-, -, -, -, -, h6, h7⟩
            exact hC ⟨h6, h7⟩
          constructor
          · rw [if_neg hA, if_neg hB, if_neg hC, if_neg hne]; rfl
          · rw [if_neg hA, if_neg hB, if_neg hC]; exact Nat.zero_le _
  exact core (Step5.cutAtDot s)

/-- C9 (counterexample).  The time value 1200.0 — a float-rendered HHMM
cell, not a 4-digit digit string — is emitted as 720 rather than being
coerced to 0, because the conversion first cuts the value at the dot. -/
theorem time_float_artifact_not_zero :
    Step5.timeMinutesFilled "1200.0" = 720
    ∧ "1200.0".toList.length ≠ 4
    ∧ (720 : Nat) ≠ 0 := by
  exact ⟨by decide, by decide, by decide⟩

/-! ### Theorems: time-of-day bucketing (claim C5) -/

/-- C5 (amended).  Whenever the hour regex of categorize_time parses an
hour from the time string (one or two digits directly before a colon, with
12 added to a PM hour below 12), the bucket is exactly the fixed band of
that hour: 05-11 Morning, 12-16 Afternoon, 17-21 Evening, otherwise Night.
Colon-less 4-digit strings parse no hour and fall to Unknown instead. -/
theorem categorize_time_bands :
    ∀ (s : String) (h : Nat), AnalyzeData.parsedHour s = some h →
      AnalyzeData.categorize_time s = AnalyzeData.bandSpec h := by
  intro s h hp
  unfold AnalyzeData.parsedHour at hp
  rcases hd : scanWith AnalyzeData.hourColonAt s.toList with _ | d
  · rw [hd] at hp; exact absurd hp (by simp)
  · rw [hd] at hp
    have hp2 : (if AnalyzeData.isPM s ∧ digitsToNat d < 12 then digitsToNat d + 12
        else digitsToNat d) = h := by
      simpa using hp
    unfold AnalyzeData.categorize_time AnalyzeData.bandSpec
    rw [hd]
    subst hp2
    rfl

/-- C5 (witness for categorize_time_bands): the boundary time 5:00 parses
hour 5 and lands in Morning on both sides. -/
theorem categorize_time_bands_witness :
    AnalyzeData.parsedHour "5:00" = some 5
    ∧ AnalyzeData.categorize_time "5:00" = AnalyzeData.bandSpec 5
    ∧ AnalyzeData.bandSpec 5 = "Morning" := by
  refine ⟨by decide, categorize_time_bands "5:00" 5 (by decide), by decide⟩

/-- C5 (counterexample).  The spec boundary case 0500 has no colon, so the
hour regex (one or two digits before a colon) never matches: the bucket is
Unknown, not the claimed Morning; the same happens to all eight 4-digit
boundary strings of the claim. -/
theorem categorize_time_0500_unknown :
    AnalyzeData.categorize_time "0500" = "Unknown"
    ∧ AnalyzeData.categorize_time "1159" = "Unknown"
    ∧ AnalyzeData.categorize_time "1200" = "Unknown"
    ∧ AnalyzeData.categorize_time "1659" = "Unknown"
    ∧ AnalyzeData.categorize_time "1700" = "Unknown"
    ∧ AnalyzeData.categorize_time "2159" = "Unknown"
    ∧ AnalyzeData.categorize_time "2200" = "Unknown"
    ∧ AnalyzeData.categorize_time "0459" = "Unknown"
    ∧ "Unknown" ≠ "Morning" := by
  refine ⟨by decide, by decide, by decide, by decide, by decide, by decide,
    by decide, by decide, by decide⟩

/-! ### Theorems: header-row detection (claim C3) -/

namespace Archive

theorem fhrGo_some (t : List (List (Option String))) :
    ∀ n i, fhrGo n t = some i →
      ∃ k, i = n + k
        ∧ (∃ row, t.get? k = some row ∧ 2 ≤ kwCells row)
        ∧ ∀ j, j < k → ∀ row, t.get? j = some row → kwCells row < 2 := by
  induction t with
  | nil => intro n i h; exact absurd h (by simp [fhrGo])
  | cons row rest ih =>
    intro n i h
    by_cases hc : row ≠ [] ∧ 2 ≤ kwCells row
    · rw [fhrGo, if_pos hc] at h
      injection h with h
      subst h
      exact ⟨0, by omega, ⟨row, rfl, hc.2⟩, fun j hj => absurd hj (by omega)⟩
    · rw [fhrGo, if_neg hc] at h
      obtain ⟨k, hk, hrow, hbefore⟩ := ih (n + 1) i h
      refine ⟨k + 1, by omega, ?_, ?_⟩
      · obtain ⟨r, hr, hkw⟩ := hrow
        exact ⟨r, by simpa using hr, hkw⟩
      · intro j hj r hr
        match j with
        | 0 =>
          have : r = row := by simpa using hr.symm
          subst this
          rcases not_and_or.mp hc with hempty | hlt
          · have : r = [] := not_not.mp hempty
            subst this
            decide
          · omega
        | j + 1 =>
          exact hbefore j (by omega) r (by simpa using hr)

theorem fhrGo_none (t : List (List (Option String))) :
    ∀ n, fhrGo n t = none → ∀ row ∈ t, kwCells row < 2 := by
  induction t with
  | nil => intro n _ row hr; exact absurd hr (by simp)
  | cons a rest ih =>
    intro n h row hr
    by_cases hc : a ≠ [] ∧ 2 ≤ kwCells a
    · rw [fhrGo, if_pos hc] at h; exact absurd h (by simp)
    · rw [fhrGo, if_neg hc] at h
      rcases List.mem_cons.mp hr with rfl | hr
      · rcases not_and_or.mp hc with hempty | hlt
        · have : row = [] := not_not.mp hempty
          subst this; decide
        · omega
      · exact ih (n + 1) h row hr

end Archive

/-- C3 (amended).  Header detection returns the index of the first row
(not the row of globally highest keyword count) having at least 2 cells
that contain one of the domain keywords case, incident, date, time,
offense, location, address by case-insensitive substring match: every
earlier row has fewer than 2 such cells, and when no row qualifies the
result is none, the table contributes no records, and processing of the
remaining tables of the file continues unchanged (no exception exists in
the model, which is total). -/
theorem header_first_qualifying_row :
    ∀ table : List (List (Option String)),
      (∀ i, Archive.find_header_row table = some i →
        (∃ row, table.get? i = some row ∧ 2 ≤ Archive.kwCells row)
        ∧ ∀ j, j < i → ∀ row, table.get? j = some row → Archive.kwCells row < 2)
      ∧ (Archive.find_header_row table = none →
        (∀ row ∈ table, Archive.kwCells row < 2)
        ∧ Archive.processTable table = []
        ∧ ∀ rest, Archive.extractTablesList (table :: rest) =
            Archive.extractTablesList rest) := by
  intro table
  constructor
  · intro i h
    obtain ⟨k, hk, hrow, hbefore⟩ := Archive.fhrGo_some table 0 i h
    have : i = k := by omega
    subst this
    exact ⟨hrow, hbefore⟩
  · intro h
    have hall := Archive.fhrGo_none table 0 h
    have hpt : Archive.processTable table = [] := by
      unfold Archive.processTable
      by_cases he : table.isEmpty || table.all List.isEmpty
      · rw [if_pos he]
      · rw [if_neg he, Archive.find_header_row] at *
        rw [h]
    refine ⟨hall, hpt, fun rest => ?_⟩
    unfold Archive.extractTablesList
    simp [hpt]

/-- C3 (witness for header_first_qualifying_row): on a table whose first
row is junk and whose second row holds CASE # and DATE cells the header is
row 1, and on a one-row keyword-free table no header is found, the table
yields nothing, and the rest of the file is unaffected. -/
theorem header_first_qualifying_row_witness :
    ((∃ row, [[some "x"], [some "CASE #", some "DATE"]].get? 1 = some row
        ∧ 2 ≤ Archive.kwCells row)
      ∧ ∀ j, j < 1 → ∀ row, [[some "x"], [some "CASE #", some "DATE"]].get? j = some row →
          Archive.kwCells row < 2)
    ∧ ((∀ row ∈ [[some "nothing here"]], Archive.kwCells row < 2)
      ∧ Archive.processTable [[some "nothing here"]] = []
      ∧ ∀ rest, Archive.extractTablesList ([[some "nothing here"]] :: rest) =
          Archive.extractTablesList rest) :=
  ⟨(header_first_qualifying_row [[some "x"], [some "CASE #", some "DATE"]]).1 1 (by decide),
   (header_first_qualifying_row [[some "nothing here"]]).2 (by decide)⟩

/-- C3 (counterexample).  find_header_row picks the first row with at
least 2 keyword cells, not the row containing the highest count: here row
0 (2 keyword cells) is selected although row 1 has 3. -/
theorem header_not_highest_count :
    Archive.find_header_row
        [[some "Case", some "Date"], [some "Case", some "Date", some "Time"]] = some 0
    ∧ Archive.kwCells [some "Case", some "Date"] = 2
    ∧ Archive.kwCells [some "Case", some "Date", some "Time"] = 3
    ∧ (2 : Nat) < 3 := by
  exact ⟨by decide, by decide, by decide, by decide⟩

/-! ### Theorems: the free-text parsers (claim C4) -/

/-- A value already stored in date survives gsDate. -/
theorem gsDate_keep (r : RawRec) (g : Option String) (v : String)
    (h : r.date = some v) : (gsDate r g).date = some v := by
  cases g with
  | none => exact h
  | some w => simp [gsDate, h]

/-- On a record with no date yet, gsDate stores the stripped group. -/
theorem gsDate_fresh (r : RawRec) (g : Option String)
    (h : r.date = none) : (gsDate r g).date = g.map pyStrip := by
  cases g with
  | none => simpa using h
  | some w => simp [gsDate, h]

/-- gsDate leaves case_num unchanged. -/
theorem gsDate_case_num (r : RawRec) (g : Option String) : (gsDate r g).case_num = r.case_num := by
  cases g with
  | none => rfl
  | some w => by_cases h : r.date = none <;> simp [gsDate, h]

/-- gsDate leaves time unchanged. -/
theorem gsDate_time (r : RawRec) (g : Option String) : (gsDate r g).time = r.time := by
  cases g with
  | none => rfl
  | some w => by_cases h : r.date = none <;> simp [gsDate, h]

/-- gsDate leaves location unchanged. -/
theorem gsDate_location (r : RawRec) (g : Option String) : (gsDate r g).location = r.location := by
  cases g with
  | none => rfl
  | some w => by_cases h : r.date = none <;> simp [gsDate, h]

/-- gsDate leaves offense unchanged. -/
theorem gsDate_offense (r : RawRec) (g : Option String) : (gsDate r g).offense = r.offense := by
  cases g with
  | none => rfl
  | some w => by_cases h : r.date = none <;> simp [gsDate, h]

/-- A value already stored in time survives gsTime. -/
theorem gsTime_keep (r : RawRec) (g : Option String) (v : String)
    (h : r.time = some v) : (gsTime r g).time = some v := by
  cases g with
  | none => exact h
  | some w => simp [gsTime, h]

/-- On a record with no time yet, gsTime stores the stripped group. -/
theorem gsTime_fresh (r : RawRec) (g : Option String)
    (h : r.time = none) : (gsTime r g).time = g.map pyStrip := by
  cases g with
  | none => simpa using h
  | some w => simp [gsTime, h]

/-- gsTime leaves case_num unchanged. -/
theorem gsTime_case_num (r : RawRec) (g : Option String) : (gsTime r g).case_num = r.case_num := by
  cases g with
  | none => rfl
  | some w => by_cases h : r.time = none <;> simp [gsTime, h]

/-- gsTime leaves date unchanged. -/
theorem gsTime_date (r : RawRec) (g : Option String) : (gsTime r g).date = r.date := by
  cases g with
  | none => rfl
  | some w => by_cases h : r.time = none <;> simp [gsTime, h]

/-- gsTime leaves location unchanged. -/
theorem gsTime_location (r : RawRec) (g : Option String) : (gsTime r g).location = r.location := by
  cases g with
  | none => rfl
  | some w => by_cases h : r.time = none <;> simp [gsTime, h]

/-- gsTime leaves offense unchanged. -/
theorem gsTime_offense (r : RawRec) (g : Option String) : (gsTime r g).offense = r.offense := by
  cases g with
  | none => rfl
  | some w => by_cases h : r.time = none <;> simp [gsTime, h]

/-- A value already stored in location survives gsLoc. -/
theorem gsLoc_keep (r : RawRec) (g : Option String) (v : String)
    (h : r.location = some v) : (gsLoc r g).location = some v := by
  cases g with
  | none => exact h
  | some w => simp [gsLoc, h]

/-- On a record with no location yet, gsLoc stores the stripped group. -/
theorem gsLoc_fresh (r : RawRec) (g : Option String)
    (h : r.location = none) : (gsLoc r g).location = g.map pyStrip := by
  cases g with
  | none => simpa using h
  | some w => simp [gsLoc, h]

/-- gsLoc leaves case_num unchanged. -/
theorem gsLoc_case_num (r : RawRec) (g : Option String) : (gsLoc r g).case_num = r.case_num := by
  cases g with
  | none => rfl
  | some w => by_cases h : r.location = none <;> simp [gsLoc, h]

/-- gsLoc leaves date unchanged. -/
theorem gsLoc_date (r : RawRec) (g : Option String) : (gsLoc r g).date = r.date := by
  cases g with
  | none => rfl
  | some w => by_cases h : r.location = none <;> simp [gsLoc, h]

/-- gsLoc leaves time unchanged. -/
theorem gsLoc_time (r : RawRec) (g : Option String) : (gsLoc r g).time = r.time := by
  cases g with
  | none => rfl
  | some w => by_cases h : r.location = none <;> simp [gsLoc, h]

/-- gsLoc leaves offense unchanged. -/
theorem gsLoc_offense (r : RawRec) (g : Option String) : (gsLoc r g).offense = r.offense := by
  cases g with
  | none => rfl
  | some w => by_cases h : r.location = none <;> simp [gsLoc, h]

/-- A value already stored in offense survives gsOff. -/
theorem gsOff_keep (r : RawRec) (g : Option String) (v : String)
    (h : r.offense = some v) : (gsOff r g).offense = some v := by
  cases g with
  | none => exact h
  | some w => simp [gsOff, h]

/-- On a record with no offense yet, gsOff stores the stripped group. -/
theorem gsOff_fresh (r : RawRec) (g : Option String)
    (h : r.offense = none) : (gsOff r g).offense = g.map pyStrip := by
  cases g with
  | none => simpa using h
  | some w => simp [gsOff, h]

/-- gsOff leaves case_num unchanged. -/
theorem gsOff_case_num (r : RawRec) (g : Option String) : (gsOff r g).case_num = r.case_num := by
  cases g with
  | none => rfl
  | some w => by_cases h : r.offense = none <;> simp [gsOff, h]

/-- gsOff leaves date unchanged. -/
theorem gsOff_date (r : RawRec) (g : Option String) : (gsOff r g).date = r.date := by
  cases g with
  | none => rfl
  | some w => by_cases h : r.offense = none <;> simp [gsOff, h]

/-- gsOff leaves time unchanged. -/
theorem gsOff_time (r : RawRec) (g : Option String) : (gsOff r g).time = r.time := by
  cases g with
  | none => rfl
  | some w => by_cases h : r.offense = none <;> simp [gsOff, h]

/-- gsOff leaves location unchanged. -/
theorem gsOff_location (r : RawRec) (g : Option String) : (gsOff r g).location = r.location := by
  cases g with
  | none => rfl
  | some w => by_cases h : r.offense = none <;> simp [gsOff, h]

namespace Archive

theorem archStep_blank (s : List RawRec × RawRec) (line : String)
    (hl : pyStrip line = "") : archStep s line = s := by
  unfold archStep
  rw [if_pos hl]

theorem archStep_nocase (s : List RawRec × RawRec) (line : String)
    (hl : pyStrip line ≠ "") (hc : caseSearch (pyStrip line) = none) :
    archStep s line =
      if s.2 ≠ emptyRec then
        (s.1, gsOff (gsLoc (gsTime (gsDate s.2 (dateSearch (pyStrip line)))
            (timeSearch (pyStrip line))) (locSearch (pyStrip line)))
          (offSearch (pyStrip line)))
      else s := by
  unfold archStep
  rw [if_neg hl, hc]

theorem archStep_case (s : List RawRec × RawRec) (line : String) (c : String)
    (hl : pyStrip line ≠ "") (hc : caseSearch (pyStrip line) = some c) :
    archStep s line =
      (if s.2 ≠ emptyRec ∧ 1 < countFields s.2 then s.1 ++ [s.2] else s.1,
       gsOff (gsLoc (gsTime (gsDate { emptyRec with case_num := some (pyStrip c) }
           (dateSearch (pyStrip line))) (timeSearch (pyStrip line)))
         (locSearch (pyStrip line))) (offSearch (pyStrip line))) := by
  unfold archStep
  rw [if_neg hl, hc]

end Archive

/-- C4 (amended).  In the archive free-text parser, first match per field
wins and case-line fields are merged: on a line with no case-number match
every already-set field of the accumulator keeps its value (a later match
never overwrites it), and on a line whose case pattern matches, the freshly
started record carries the stripped case group together with the stripped
groups of whatever date, time, location and offense patterns also match
that same line.  (In the top-level src/extract_data.py variant a later
match does overwrite, and case-line fields are skipped; see the
counterexample.) -/
theorem parser_first_match_wins :
    ∀ (s : List RawRec × RawRec) (line : String),
      (Archive.caseSearch (pyStrip line) = none →
        ∀ v : String,
          (s.2.date = some v → (Archive.archStep s line).2.date = some v)
          ∧ (s.2.time = some v → (Archive.archStep s line).2.time = some v)
          ∧ (s.2.location = some v → (Archive.archStep s line).2.location = some v)
          ∧ (s.2.offense = some v → (Archive.archStep s line).2.offense = some v))
      ∧ (∀ c, Archive.caseSearch (pyStrip line) = some c →
          (Archive.archStep s line).2.case_num = some (pyStrip c)
          ∧ (Archive.archStep s line).2.date =
              (Archive.dateSearch (pyStrip line)).map pyStrip
          ∧ (Archive.archStep s line).2.time =
              (Archive.timeSearch (pyStrip line)).map pyStrip
          ∧ (Archive.archStep s line).2.location =
              (Archive.locSearch (pyStrip line)).map pyStrip
          ∧ (Archive.archStep s line).2.offense =
              (Archive.offSearch (pyStrip line)).map pyStrip) := by
  intro s line
  by_cases hl : pyStrip line = ""
  · have hs := Archive.archStep_blank s line hl
    constructor
    · intro _ v
      rw [hs]
      exact ⟨fun h => h, fun h => h, fun h => h, fun h => h⟩
    · intro c hc
      rw [hl] at hc
      rw [show Archive.caseSearch "" = none from by decide] at hc
      exact absurd hc (by simp)
  · constructor
    · intro hc v
      rw [Archive.archStep_nocase s line hl hc]
      by_cases hemp : s.2 ≠ emptyRec
      · rw [if_pos hemp]
        refine ⟨fun h => ?_, fun h => ?_, fun h => ?_, fun h => ?_⟩
        · rw [gsOff_date, gsLoc_date, gsTime_date]
          exact gsDate_keep _ _ _ h
        · rw [gsOff_time, gsLoc_time]
          exact gsTime_keep _ _ _ (by rw [gsDate_time]; exact h)
        · rw [gsOff_location]
          exact gsLoc_keep _ _ _ (by rw [gsTime_location, gsDate_location]; exact h)
        · exact gsOff_keep _ _ _ (by rw [gsLoc_offense, gsTime_offense, gsDate_offense]; exact h)
      · rw [if_neg hemp]
        exact ⟨fun h => h, fun h => h, fun h => h, fun h => h⟩
    · intro c hc
      rw [Archive.archStep_case s line c hl hc]
      refine ⟨?_, ?_, ?_, ?_, ?_⟩
      · rw [gsOff_case_num, gsLoc_case_num, gsTime_case_num, gsDate_case_num]
      · rw [gsOff_date, gsLoc_date, gsTime_date]
        exact gsDate_fresh _ _ rfl
      · rw [gsOff_time, gsLoc_time]
        exact gsTime_fresh _ _ (by rw [gsDate_time]; rfl)
      · rw [gsOff_location]
        exact gsLoc_fresh _ _ (by rw [gsTime_location, gsDate_location]; rfl)
      · exact gsOff_fresh _ _ (by rw [gsLoc_offense, gsTime_offense, gsDate_offense]; rfl)

/-- C4 (witness for parser_first_match_wins): a stored date 1/1/2025
survives the later line DATE: 2/2/2025, and the line
CASE #: 25-2 DATE: 3/3/2025 starts a record holding both its case number
and its same-line date. -/
theorem parser_first_match_wins_witness :
    (Archive.archStep ([], { emptyRec with case_num := some "25-1", date := some "1/1/2025" })
        "DATE: 2/2/2025").2.date = some "1/1/2025"
    ∧ (Archive.archStep ([], emptyRec) "CASE #: 25-2 DATE: 3/3/2025").2.case_num = some "25-2"
    ∧ (Archive.archStep ([], emptyRec) "CASE #: 25-2 DATE: 3/3/2025").2.date = some "3/3/2025" := by
  have h1 := (parser_first_match_wins
    ([], { emptyRec with case_num := some "25-1", date := some "1/1/2025" })
    "DATE: 2/2/2025").1 (by decide) "1/1/2025"
  have h2 := (parser_first_match_wins ([], emptyRec) "CASE #: 25-2 DATE: 3/3/2025").2
    "25-2" (by decide)
  exact ⟨h1.1 rfl, h2.1.trans (by decide), h2.2.1.trans (by decide)⟩

/-- C4 (counterexample).  In the top-level parser of src/extract_data.py a
second DATE line overwrites the date stored from the first one: the claim
that a later matching line never overwrites a set field fails there.  The
parsed record carries 2/2/2025, not the first-seen 1/1/2025. -/
theorem parser_overwrite_counterexample :
    Extract.parse_text_manually "CASE #: 25-1\nDATE: 1/1/2025\nDATE: 2/2/2025" =
      [{ emptyRec with case_num := some "25-1", date := some "2/2/2025" }]
    ∧ (some "2/2/2025" : Option String) ≠ some "1/1/2025" := by
  exact ⟨by decide, by decide⟩

/-! ### Association-list lemmas for the cache theorems -/

theorem find_map_update {α : Type} (l : List (String × α)) (k kp : String) (v : α)
    (h : k ≠ kp) :
    (l.map (fun p => if p.1 = kp then (kp, v) else p)).find? (fun p => p.1 = k) =
      l.find? (fun p => p.1 = k) := by
  induction l with
  | nil => rfl
  | cons p t ih =>
    by_cases hp : p.1 = kp
    · have h1 : ¬ (kp = k) := fun e => h e.symm
      have h2 : ¬ (p.1 = k) := by rw [hp]; exact h1
      simp [List.find?_cons, hp, h1, h2, ih]
    · by_cases h2 : p.1 = k
      · simp [List.find?_cons, hp, h2, h]
      · simp [List.find?_cons, hp, h2, ih]

theorem find_append_single {α : Type} (l : List (String × α)) (k kp : String) (v : α)
    (h : k ≠ kp) :
    (l ++ [(kp, v)]).find? (fun p => p.1 = k) = l.find? (fun p => p.1 = k) := by
  have h1 : ¬ (kp = k) := fun e => h e.symm
  induction l with
  | nil => simp [List.find?_cons, h1]
  | cons p t ih =>
    by_cases h2 : p.1 = k <;> simp [List.find?_cons, h2, ih]

theorem find_map_update_self {α : Type} (l : List (String × α)) (k : String) (v : α) :
    (l.find? (fun p => p.1 = k)).isSome →
    (l.map (fun p => if p.1 = k then (k, v) else p)).find? (fun p => p.1 = k) =
      some (k, v) := by
  induction l with
  | nil => intro h; simp at h
  | cons p t ih =>
    intro h
    by_cases hp : p.1 = k
    · simp [List.find?_cons, hp]
    · have h2 : (t.find? (fun p => p.1 = k)).isSome := by
        simpa [List.find?_cons, hp] using h
      simp [List.find?_cons, hp, ih h2]

theorem find_append_single_self {α : Type} (l : List (String × α)) (k : String) (v : α) :
    l.find? (fun p => p.1 = k) = none →
    (l ++ [(k, v)]).find? (fun p => p.1 = k) = some (k, v) := by
  induction l with
  | nil => intro h; simp [List.find?_cons]
  | cons p t ih =>
    intro h
    by_cases hp : p.1 = k
    · simp [List.find?_cons, hp] at h
    · have h2 : t.find? (fun p => p.1 = k) = none := by
        simpa [List.find?_cons, hp] using h
      simp [List.find?_cons, hp, ih h2]

/-- Updating key kp leaves the association of any other key unchanged. -/
theorem alookup_aupdate_of_ne {α : Type} (l : List (String × α)) (k kp : String)
    (v : α) (h : k ≠ kp) : alookup (aupdate l kp v) k = alookup l k := by
  unfold aupdate alookup
  split
  · rw [find_map_update l k kp v h]
  · rw [find_append_single l k kp v h]

/-- Updating key k makes it map to the new value. -/
theorem alookup_aupdate_self {α : Type} (l : List (String × α)) (k : String) (v : α) :
    alookup (aupdate l k v) k = some v := by
  unfold aupdate alookup
  by_cases hf : (l.find? (fun p => p.1 = k)).isSome
  · rw [if_pos hf, find_map_update_self l k v hf]
    rfl
  · rw [if_neg hf, find_append_single_self l k v (Option.not_isSome_iff_eq_none.mp hf)]
    rfl

/-- Presence of a key is preserved by any update. -/
theorem aupdate_isSome_mono {α : Type} (l : List (String × α)) (k kp : String)
    (v : α) (h : (alookup l k).isSome) : (alookup (aupdate l kp v) k).isSome := by
  by_cases hk : k = kp
  · subst hk
    rw [alookup_aupdate_self]
    rfl
  · rw [alookup_aupdate_of_ne l k kp v hk]
    exact h

/-- Presence of a key is preserved by dict.update. -/
theorem aupdateAll_isSome_mono {α : Type} (m : List (String × α)) :
    ∀ (l : List (String × α)) (k : String), (alookup l k).isSome →
      (alookup (aupdateAll l m) k).isSome := by
  induction m with
  | nil => intro l k h; exact h
  | cons q t ih =>
    intro l k h
    exact ih (aupdate l q.1 q.2) k (aupdate_isSome_mono l k q.1 q.2 h)

/-- The association of a key is preserved by dict.update with a map whose
keys all differ from it. -/
theorem aupdateAll_of_ne {α : Type} (m : List (String × α)) :
    ∀ (l : List (String × α)) (k : String),
      (∀ kp ∈ m.map (fun p => p.1), kp ≠ k) →
      alookup (aupdateAll l m) k = alookup l k := by
  induction m with
  | nil => intro l k _; rfl
  | cons q t ih =>
    intro l k hne
    have h1 : q.1 ≠ k := hne q.1 (by simp)
    rw [show aupdateAll l (q :: t) = aupdateAll (aupdate l q.1 q.2) t from rfl]
    rw [ih (aupdate l q.1 q.2) k (fun kp hkp => hne kp (by simp [hkp]))]
    exact alookup_aupdate_of_ne l k q.1 q.2 (fun e => h1 e.symm)

/-- Every pair of aupdate comes from the original list or is the update. -/
theorem mem_aupdate {α : Type} (l : List (String × α)) (k : String) (v : α)
    (p : String × α) (hp : p ∈ aupdate l k v) : p ∈ l ∨ p = (k, v) := by
  unfold aupdate at hp
  split at hp
  · obtain ⟨q, hq, he⟩ := List.mem_map.mp hp
    by_cases hq1 : q.1 = k
    · right
      rw [if_pos hq1] at he
      exact he.symm
    · left
      rw [if_neg hq1] at he
      exact he ▸ hq
  · rcases List.mem_append.mp hp with h | h
    · exact Or.inl h
    · right
      simpa using h

/-- Every pair of dict.update comes from the original dict or the new map. -/
theorem mem_aupdateAll {α : Type} (m : List (String × α)) :
    ∀ (l : List (String × α)) (p : String × α),
      p ∈ aupdateAll l m → p ∈ l ∨ p ∈ m := by
  induction m with
  | nil => intro l p hp; exact Or.inl hp
  | cons q t ih =>
    intro l p hp
    rcases ih (aupdate l q.1 q.2) p hp with h | h
    · rcases mem_aupdate l q.1 q.2 p h with h2 | h2
      · exact Or.inl h2
      · exact Or.inr (by simp [h2])
    · exact Or.inr (List.mem_cons_of_mem _ h)

/-- A successful lookup returns the value of some stored pair. -/
theorem alookup_some_mem {α : Type} (l : List (String × α)) (k : String) (v : α)
    (h : alookup l k = some v) : ∃ p, p ∈ l ∧ p.2 = v := by
  unfold alookup at h
  rcases hf : l.find? (fun p => p.1 = k) with _ | p
  · rw [hf] at h
    exact absurd h (by simp)
  · rw [hf] at h
    exact ⟨p, List.mem_of_find?_eq_some hf, by simpa using h⟩

/-! ### Theorems: category closure (claim C2) -/

/-- Every value of the validated LLM categorisation map belongs to the
fixed category list. -/
theorem llm_values_closed (requested : List String) (resp : Step4.LLMResult)
    (p : String × String)
    (hp : p ∈ Step4.get_offense_categories_from_llm requested resp) :
    p.2 ∈ Step4.OFFENSE_CATEGORIES := by
  unfold Step4.get_offense_categories_from_llm at hp
  by_cases hreq : requested.isEmpty
  · rw [if_pos hreq] at hp
    exact absurd hp (by simp)
  · rw [if_neg hreq] at hp
    cases resp with
    | failure =>
      obtain ⟨ot, _, he⟩ := List.mem_map.mp hp
      rw [← he]
      show "Administrative/Other" ∈ Step4.OFFENSE_CATEGORIES
      decide
    | malformed => exact absurd hp (by simp)
    | ok m =>
      obtain ⟨q, _, he⟩ := List.mem_map.mp hp
      by_cases hq : q.2 ∈ Step4.OFFENSE_CATEGORIES
      · rw [if_pos hq] at he
        rw [← he]
        exact hq
      · rw [if_neg hq] at he
        rw [← he]
        show "Administrative/Other" ∈ Step4.OFFENSE_CATEGORIES
        decide

/-- C2.  Category closure: the keyword classifier only ever returns a
value of its fixed ten-element list, with Unknown on empty input and Other
on no keyword hit; the validated LLM map only carries values of the fixed
OFFENSE_CATEGORIES list (missing and out-of-list entries having been
coerced to Administrative/Other); and under a cache whose values are
closed, every row emitted by process_csv carries a category of the fixed
list — never a raw free-text value. -/
theorem offense_category_closure :
    (∀ s, Extract.normalize_categories s ∈ Extract.categoryList)
    ∧ Extract.normalize_categories "" = "Unknown"
    ∧ (∀ requested resp p, p ∈ Step4.get_offense_categories_from_llm requested resp →
        p.2 ∈ Step4.OFFENSE_CATEGORIES)
    ∧ (∀ (offCache : List (String × String)) (geoCache : Step4.GeoCache)
        (rows : List Step4.InRow) (resp : Step4.LLMResult)
        (api : String → Option (List Step4.Place)),
        (∀ q ∈ offCache, q.2 ∈ Step4.OFFENSE_CATEGORIES) →
        ∀ o ∈ (Step4.process_csv offCache geoCache rows resp api).1,
          o.category ∈ Step4.OFFENSE_CATEGORIES) := by
  refine ⟨?_, by decide, llm_values_closed, ?_⟩
  · intro s
    unfold Extract.normalize_categories
    dsimp only
    split_ifs <;> decide
  · intro offCache geoCache rows resp api hcache o ho
    have hcat : o.category =
        (alookup (Step4.offenseStep offCache (rows.map (fun r => pyStrip r.offense)) resp)
          o.offense).getD "Administrative/Other" := by
      unfold Step4.process_csv at ho
      simp only [List.mem_map, List.mem_filter] at ho
      obtain ⟨r, _, rfl⟩ := ho
      rfl
    rw [hcat]
    rcases hv : alookup (Step4.offenseStep offCache
        (rows.map (fun r => pyStrip r.offense)) resp) o.offense with _ | v
    · rw [hv]
      show "Administrative/Other" ∈ Step4.OFFENSE_CATEGORIES
      decide
    · rw [hv]
      obtain ⟨p, hpmem, hpv⟩ := alookup_some_mem _ _ _ hv
      show v ∈ Step4.OFFENSE_CATEGORIES
      rw [← hpv]
      rcases mem_aupdateAll _ _ _ hpmem with h | h
      · exact hcache p h
      · exact llm_values_closed _ _ _ h

/-- C2 (witness for offense_category_closure): concrete checks of every
conjunct, with the cache-closure hypothesis discharged on a one-entry
cache. -/
theorem offense_category_closure_witness :
    Extract.normalize_categories "BIKE THEFT" ∈ Extract.categoryList
    ∧ Extract.normalize_categories "" = "Unknown"
    ∧ (∀ p, p ∈ Step4.get_offense_categories_from_llm ["Vandalism"] .failure →
        p.2 ∈ Step4.OFFENSE_CATEGORIES)
    ∧ (∀ o ∈ (Step4.process_csv [("Theft", "Theft")] [] [⟨some "100 Alma St", "Theft"⟩]
        .malformed (fun _ => none)).1, o.category ∈ Step4.OFFENSE_CATEGORIES) :=
  ⟨offense_category_closure.1 "BIKE THEFT",
   offense_category_closure.2.1,
   fun p hp => offense_category_closure.2.2.1 ["Vandalism"] .failure p hp,
   offense_category_closure.2.2.2 [("Theft", "Theft")] [] [⟨some "100 Alma St", "Theft"⟩]
     .malformed (fun _ => none) (by decide)⟩

/-! ### Theorems: missing locations dropped (claim C10) -/

/-- C10.  In the per-file enrichment, every input row whose location is
missing is removed before geocoding and never reaches the processed
output, losing its categorisation with it; the output rows are exactly the
rows with a present location, in order, and each output row has a
non-null location. -/
theorem missing_location_rows_dropped :
    ∀ (offCache : List (String × String)) (geoCache : Step4.GeoCache)
      (rows : List Step4.InRow) (resp : Step4.LLMResult)
      (api : String → Option (List Step4.Place)),
      (∀ o ∈ (Step4.process_csv offCache geoCache rows resp api).1, o.location.isSome)
      ∧ (Step4.process_csv offCache geoCache rows resp api).1.map
          (fun o => (o.location, o.offense)) =
        (rows.filter (fun r => r.location.isSome)).map
          (fun r => (r.location, pyStrip r.offense)) := by
  intro offCache geoCache rows resp api
  constructor
  · intro o ho
    unfold Step4.process_csv at ho
    simp only [List.mem_map, List.mem_filter] at ho
    obtain ⟨r, ⟨_, hsome⟩, rfl⟩ := ho
    exact hsome
  · unfold Step4.process_csv
    rw [List.map_map]
    rfl

/-! ### Theorems: safety scores (claim C6) -/

/-- The spec example street: two Theft incidents and one Traffic incident
on one street. -/
def exampleStreetRows : List CsvAnalysis.SRow :=
  [⟨some "X", "Theft"⟩, ⟨some "X", "Theft"⟩, ⟨some "X", "Traffic"⟩]

/-- C6.  Every street entering the safety dictionary carries score equal
to the sum over the weighted categories of count times weight, divided by
the street incident count; the ranking filter keeps only streets with at
least 2 incidents; and the spec example (2 Theft at weight 7, 1 Traffic at
weight 2) scores exactly 16/3. -/
theorem safety_score_formula :
    (∀ (rows : List CsvAnalysis.SRow) (st : String) (q : ℚ) (n : Nat),
      (st, q, n) ∈ CsvAnalysis.safety_scores rows →
        n = CsvAnalysis.streetCount rows st
        ∧ q = (CsvAnalysis.weighted_score rows st : ℚ) / (n : ℚ))
    ∧ (∀ (rows : List CsvAnalysis.SRow) (t : String × ℚ × Nat),
        t ∈ CsvAnalysis.rankedScores rows → 2 ≤ t.2.2)
    ∧ CsvAnalysis.safety_scores exampleStreetRows = [("X", (16 : ℚ) / 3, 3)]
    ∧ (16 : ℚ) / 3 = ((2 * 7 + 1 * 2 : ℚ)) / 3 := by
  refine ⟨?_, ?_, ?_, by norm_num⟩
  · intro rows st q n h
    unfold CsvAnalysis.safety_scores at h
    simp only [List.mem_filterMap] at h
    obtain ⟨st2, _, hx⟩ := h
    by_cases hn : 0 < CsvAnalysis.streetCount rows st2
    · rw [if_pos hn] at hx
      simp only [Option.some.injEq, Prod.mk.injEq] at hx
      obtain ⟨h1, h2, h3⟩ := hx
      subst h1
      subst h3
      exact ⟨rfl, h2.symm⟩
    · rw [if_neg hn] at hx
      exact absurd hx (by simp)
  · intro rows t ht
    unfold CsvAnalysis.rankedScores at ht
    simpa using (List.mem_filter.mp ht).2
  · have h1 : CsvAnalysis.uniqueStreets exampleStreetRows = ["X"] := by decide
    have h2 : CsvAnalysis.weighted_score exampleStreetRows "X" = 16 := by decide
    have h3 : CsvAnalysis.streetCount exampleStreetRows "X" = 3 := by decide
    unfold CsvAnalysis.safety_scores
    rw [h1]
    simp [List.filterMap, h2, h3]

/-- C6 (witness for safety_score_formula): the formula and the ranking
bound instantiated on the spec example street. -/
theorem safety_score_formula_witness :
    (3 = CsvAnalysis.streetCount exampleStreetRows "X"
      ∧ (16 : ℚ) / 3 =
        (CsvAnalysis.weighted_score exampleStreetRows "X" : ℚ) / ((3 : Nat) : ℚ))
    ∧ 2 ≤ (("X", (16 : ℚ) / 3, 3) : String × ℚ × Nat).2.2 := by
  have hmem : (("X", (16 : ℚ) / 3, 3) : String × ℚ × Nat) ∈
      CsvAnalysis.safety_scores exampleStreetRows := by
    rw [safety_score_formula.2.2.1]
    exact List.mem_singleton.mpr rfl
  have hrank : (("X", (16 : ℚ) / 3, 3) : String × ℚ × Nat) ∈
      CsvAnalysis.rankedScores exampleStreetRows :=
    List.mem_filter.mpr ⟨hmem, by norm_num⟩
  exact ⟨safety_score_formula.1 exampleStreetRows "X" ((16 : ℚ) / 3) 3 hmem,
         safety_score_formula.2.1 exampleStreetRows _ hrank⟩

/-! ### Theorems: cache monotonicity (claim C7) -/

namespace Step4

theorem geoStep_preserve (api : String → Option (List Place))
    (st : GeoCache × Nat) (loc : String) (k : String) (v : Option (List Place))
    (h : alookup st.1 k = some v) : alookup (geoStep api st loc).1 k = some v := by
  unfold geoStep
  by_cases hb : pyStrip loc = ""
  · rw [if_pos hb]; exact h
  · rw [if_neg hb]
    rcases hq : alookup st.1 (geoQuery loc) with _ | w
    · have hk : k ≠ geoQuery loc := by
        intro e; rw [e, hq] at h; exact Option.noConfusion h
      rw [alookup_aupdate_of_ne st.1 k (geoQuery loc) _ hk]
      exact h
    · exact h

theorem foldl_geoStep_preserve (api : String → Option (List Place))
    (locs : List String) :
    ∀ (st : GeoCache × Nat) (k : String) (v : Option (List Place)),
      alookup st.1 k = some v →
      alookup (locs.foldl (geoStep api) st).1 k = some v := by
  induction locs with
  | nil => intro st k v h; exact h
  | cons loc rest ih =>
    intro st k v h
    exact ih (geoStep api st loc) k v (geoStep_preserve api st loc k v h)

theorem foldl_geoStep_warm (api : String → Option (List Place))
    (locs : List String) :
    ∀ (cache : GeoCache) (n : Nat),
      (∀ loc ∈ locs, pyStrip loc ≠ "" → (alookup cache (geoQuery loc)).isSome) →
      locs.foldl (geoStep api) (cache, n) = (cache, n) := by
  induction locs with
  | nil => intro cache n _; rfl
  | cons loc rest ih =>
    intro cache n hwarm
    have hstep : geoStep api (cache, n) loc = (cache, n) := by
      unfold geoStep
      by_cases hb : pyStrip loc = ""
      · rw [if_pos hb]
      · rw [if_neg hb]
        rcases hq : alookup cache (geoQuery loc) with _ | w
        · have := hwarm loc (List.mem_cons_self _ _) hb
          rw [hq] at this
          exact absurd this (by simp)
        · rfl
    rw [List.foldl_cons, hstep]
    exact ih cache n (fun l hl => hwarm l (List.mem_cons_of_mem _ hl))

/-- Membership in the to-categorize list implies a cache miss. -/
theorem toCategorize_not_cached (cache : List (String × String))
    (offCol : List String) (o : String)
    (h : o ∈ offensesToCategorize cache offCol) : alookup cache o = none := by
  unfold offensesToCategorize at h
  have := (List.mem_filter.mp h).2
  simp only [Bool.and_eq_true, decide_eq_true_eq, Option.isNone_iff_eq_none] at this
  exact this.2

end Step4

/-- C7 (amended).  Over one processing step: (a) every existing geocoding
cache entry survives the geocoding loop with its original value; (b) when
every non-blank location of the batch already has its query cached, the
loop changes nothing and makes zero external geocoding calls; (c) every
key of the offense-category cache is still present after the
categorisation step; (d) its value is unchanged provided the validated
response map only carries the requested (necessarily uncached) offense
strings — dict.update can overwrite an existing entry only through a
response key that was never requested; and (e) when every distinct
non-empty offense string is already cached, nothing is sent to the
classifier and the offense cache is returned untouched. -/
theorem cache_monotonicity :
    (∀ (cache : Step4.GeoCache) (locs : List String)
        (api : String → Option (List Step4.Place)) (k : String)
        (v : Option (List Step4.Place)),
        alookup cache k = some v →
        alookup (Step4.geoLoop cache locs api).1 k = some v)
    ∧ (∀ (cache : Step4.GeoCache) (locs : List String)
        (api : String → Option (List Step4.Place)),
        (∀ loc ∈ locs, pyStrip loc ≠ "" →
          (alookup cache (Step4.geoQuery loc)).isSome) →
        Step4.geoLoop cache locs api = (cache, 0))
    ∧ (∀ (cache : List (String × String)) (offCol : List String)
        (resp : Step4.LLMResult) (k : String) (v : String),
        alookup cache k = some v →
        (alookup (Step4.offenseStep cache offCol resp) k).isSome)
    ∧ (∀ (cache : List (String × String)) (offCol : List String)
        (resp : Step4.LLMResult) (k : String) (v : String),
        alookup cache k = some v →
        (∀ kp ∈ (Step4.get_offense_categories_from_llm
            (Step4.offensesToCategorize cache offCol) resp).map (fun p => p.1),
          kp ∈ Step4.offensesToCategorize cache offCol) →
        alookup (Step4.offenseStep cache offCol resp) k = some v)
    ∧ (∀ (cache : List (String × String)) (offCol : List String)
        (resp : Step4.LLMResult),
        (∀ o ∈ uniqueFirst offCol, o ≠ "" → (alookup cache o).isSome) →
        Step4.offensesToCategorize cache offCol = []
        ∧ Step4.offenseStep cache offCol resp = cache) := by
  refine ⟨?_, ?_, ?_, ?_, ?_⟩
  · intro cache locs api k v h
    exact Step4.foldl_geoStep_preserve api locs (cache, 0) k v h
  · intro cache locs api hwarm
    exact Step4.foldl_geoStep_warm api locs cache 0 hwarm
  · intro cache offCol resp k v h
    exact aupdateAll_isSome_mono _ cache k (by rw [h]; rfl)
  · intro cache offCol resp k v h hsub
    unfold Step4.offenseStep
    rw [aupdateAll_of_ne _ cache k ?_]
    · exact h
    · intro kp hkp e
      subst e
      have := Step4.toCategorize_not_cached cache offCol kp (hsub kp hkp)
      rw [this] at h
      exact Option.noConfusion h
  · intro cache offCol resp hwarm
    have hempty : Step4.offensesToCategorize cache offCol = [] := by
      unfold Step4.offensesToCategorize
      refine List.filter_eq_nil_iff.mpr ?_
      intro o ho
      simp only [Bool.and_eq_true, decide_eq_true_eq, Option.isNone_iff_eq_none,
        not_and]
      intro hne
      have := hwarm o ho hne
      intro hnone
      rw [hnone] at this
      exact absurd this (by simp)
    refine ⟨hempty, ?_⟩
    unfold Step4.offenseStep
    rw [hempty]
    rfl

/-- C7 (witness for cache_monotonicity): all five conjuncts at one-entry
caches — a cached geocoding query and a cached offense string survive a
run over inputs already covered by the caches, with zero calls made. -/
theorem cache_monotonicity_witness :
    alookup (Step4.geoLoop [(Step4.geoQuery "X St", none)] ["X St"] (fun _ => none)).1
        (Step4.geoQuery "X St") = some none
    ∧ Step4.geoLoop [(Step4.geoQuery "X St", none)] ["X St"] (fun _ => none) =
        ([(Step4.geoQuery "X St", none)], 0)
    ∧ (alookup (Step4.offenseStep [("Theft", "Theft")] ["Theft"] .malformed)
        "Theft").isSome
    ∧ alookup (Step4.offenseStep [("Theft", "Theft")] ["Theft"] .malformed)
        "Theft" = some "Theft"
    ∧ (Step4.offensesToCategorize [("Theft", "Theft")] ["Theft"] = []
      ∧ Step4.offenseStep [("Theft", "Theft")] ["Theft"] .malformed =
          [("Theft", "Theft")]) :=
  ⟨cache_monotonicity.1 [(Step4.geoQuery "X St", none)] ["X St"] (fun _ => none)
      (Step4.geoQuery "X St") none (by decide),
   cache_monotonicity.2.1 [(Step4.geoQuery "X St", none)] ["X St"] (fun _ => none)
      (by decide),
   cache_monotonicity.2.2.1 [("Theft", "Theft")] ["Theft"] .malformed
      "Theft" "Theft" (by decide),
   cache_monotonicity.2.2.2.1 [("Theft", "Theft")] ["Theft"] .malformed
      "Theft" "Theft" (by decide) (by decide),
   cache_monotonicity.2.2.2.2 [("Theft", "Theft")] ["Theft"] .malformed (by decide)⟩

/-- C7 (counterexample).  An offense-category cache entry can change
during a run: with A cached as Theft and only B requested, a response that
also names A assigns A the new value Burglary through dict.update — the
entry is not preserved with its original value, refuting the claim that
cache entries are never changed. -/
theorem cache_entry_overwritten :
    alookup (Step4.offenseStep [("A", "Theft")] ["B"]
        (.ok [("B", "Theft"), ("A", "Burglary")])) "A" = some "Burglary"
    ∧ alookup [("A", "Theft")] "A" = some "Theft"
    ∧ "Burglary" ≠ "Theft" := by
  exact ⟨by decide, by decide, by decide⟩
